import Mathlib

/-!
Verification of the bot client in `src/pkginfobot.py` (class `TelegramBotClient`).
The Python source is embedded shallowly:

* `parse_cmd` (source lines 60-70) becomes a pure function on `String`,
  with Python's `str.strip` / `str.replace` / `str.split(' ', 1)` /
  `str.rsplit('@', 1)` modelled on `List Char`.
* `bot_api` (source lines 43-58) becomes a function of an abstract transport
  (one outcome per attempt index); its sleeps and POSTs are recorded in an
  event trace.
* `serve` (source lines 72-94) becomes a step function plus a loop driven by
  a script of fetch outcomes; callbacks are abstract functions that may
  return normally, request a stop (`self.run = False`), or raise.

Python's local-variable semantics matter for `serve`: the local `updates` is
assigned only inside the `try:`; the `except BotAPIFailed` handler has no
`continue`, so after that handler the code reads `updates` — unbound on the
first iteration (an `UnboundLocalError` escapes `serve`) and stale
afterwards.  The embedding keeps that variable in the state explicitly.
-/

namespace Pkginfobot

/-! ## Python string primitives used by `parse_cmd` -/

/-- Exactly the code points CPython's `str.isspace` — and hence the
no-argument `str.strip()` of source line 61 — treats as whitespace:
U+0009-U+000D, U+001C-U+001F, the space, U+0085, U+00A0, U+1680,
U+2000-U+200A, U+2028, U+2029, U+202F, U+205F and U+3000. -/
def isPySpace (c : Char) : Bool :=
  (0x09 ≤ c.toNat && c.toNat ≤ 0x0d) ||
  (0x1c ≤ c.toNat && c.toNat ≤ 0x1f) ||
  c.toNat = 0x20 || c.toNat = 0x85 || c.toNat = 0xa0 || c.toNat = 0x1680 ||
  (0x2000 ≤ c.toNat && c.toNat ≤ 0x200a) ||
  c.toNat = 0x2028 || c.toNat = 0x2029 || c.toNat = 0x202f ||
  c.toNat = 0x205f || c.toNat = 0x3000

/-- `text.strip()`: drop leading and trailing whitespace. -/
def pyStrip (l : List Char) : List Char :=
  ((l.dropWhile isPySpace).reverse.dropWhile isPySpace).reverse

/-- `.replace('\xa0', ' ')`: every non-breaking space becomes a plain space. -/
def nbspToSpace (l : List Char) : List Char :=
  l.map fun c => if c = '\xa0' then ' ' else c

/-- `s.split(sep, 1)`: the part before the first `sep`, and — when `sep`
occurs — the remainder after it.  Python returns a list of one or two
strings; the second component `none` means the one-element case. -/
def splitFirst (sep : Char) : List Char → List Char × Option (List Char)
  | [] => ([], none)
  | c :: rest =>
    if c = sep then ([], some rest)
    else (c :: (splitFirst sep rest).1, (splitFirst sep rest).2)

/-- `s.rsplit('@', 1)`: split at the last `'@'`, if any. -/
def rsplitOnce (l : List Char) : List Char × Option (List Char) :=
  match splitFirst '@' l.reverse with
  | (_, none) => (l, none)
  | (a, some b) => (b.reverse, some a.reverse)

/-- Source line 61, the value of `text.strip().replace('\xa0', ' ')`. -/
def coreOf (text : String) : List Char :=
  nbspToSpace (pyStrip text.data)

/-- `s.replace('\xa0', ' ')` on strings (used to state what happens to the
argument part of a command). -/
def strNbsp (s : String) : String :=
  ⟨nbspToSpace s.data⟩

/-- `TelegramBotClient.parse_cmd` (source lines 60-70).  `username` is
`self.username`.  Python's `if not t` on line 62 is dead (`split` never
returns an empty list) and is omitted.  The `len(cmd[0]) < 2` test runs
before `cmd[0][0]`, so the `headD` default is never the deciding value. -/
def parse_cmd (username text : String) : Option String × Option String :=
  let t := splitFirst ' ' (coreOf text)
  let cmd := rsplitOnce t.1
  if cmd.1.length < 2 ∨ cmd.1.headD ' ' ≠ '/' then (none, none)
  else
    match cmd.2 with
    | some suf =>
      if suf ≠ username.data then (none, none)
      else (some ⟨cmd.1.tail⟩, some ⟨t.2.getD []⟩)
    | none => (some ⟨cmd.1.tail⟩, some ⟨t.2.getD []⟩)

example : parse_cmd "bot" "/pkgver  glibc " = (some "pkgver", some " glibc") := by decide
example : parse_cmd "bot" "/search@bot foo" = (some "search", some "foo") := by decide
example : parse_cmd "bot" "/search@other foo" = (none, none) := by decide
example : parse_cmd "bot" "hello" = (none, none) := by decide
example : parse_cmd "bot" "" = (none, none) := by decide
example : parse_cmd "bot" "/" = (none, none) := by decide
example : parse_cmd "bot" "/cmd a\u00A0b" = (some "cmd", some "a b") := by decide
example : parse_cmd "bot" "\u2000/cmd x" = (some "cmd", some "x") := by decide
example : parse_cmd "bot" "/cmd a\u3000" = (some "cmd", some "a") := by decide
example : parse_cmd "bot" "/search@bot x\u3000" = (some "search", some "x") := by decide
example : parse_cmd "bot" "/start@bot" = (some "start", some "") := by decide
example : parse_cmd "bot" "\u0085/pkgver x\u1680" = (some "pkgver", some "x") := by decide

/-! ## Facts about the string primitives -/

theorem splitFirst_append (sep : Char) (a b : List Char) (h : ∀ c ∈ a, ¬ c = sep) :
    splitFirst sep (a ++ sep :: b) = (a, some b) := by
  induction a with
  | nil => simp [splitFirst]
  | cons c a ih =>
    have hc : ¬ c = sep := h c (List.mem_cons_self _ _)
    have ih' := ih fun d hd => h d (List.mem_cons_of_mem _ hd)
    simp [splitFirst, hc, ih']

theorem splitFirst_of_not_mem (sep : Char) (l : List Char) (h : ∀ c ∈ l, ¬ c = sep) :
    splitFirst sep l = (l, none) := by
  induction l with
  | nil => simp [splitFirst]
  | cons c l ih =>
    have hc : ¬ c = sep := h c (List.mem_cons_self _ _)
    have ih' := ih fun d hd => h d (List.mem_cons_of_mem _ hd)
    simp [splitFirst, hc, ih']

theorem splitFirst_eq_some (sep : Char) (l a b : List Char)
    (h : splitFirst sep l = (a, some b)) : l = a ++ sep :: b := by
  induction l generalizing a with
  | nil => simp [splitFirst] at h
  | cons c rest ih =>
    by_cases hc : c = sep
    · simp [splitFirst, hc] at h
      obtain ⟨rfl, rfl⟩ := h
      simp [hc]
    · simp [splitFirst, hc] at h
      obtain ⟨rfl, h2⟩ := h
      have := ih _ (by
        have hpair : splitFirst sep rest =
            ((splitFirst sep rest).1, (splitFirst sep rest).2) := rfl
        rw [hpair, h2])
      exact congrArg (List.cons c) this

theorem rsplitOnce_of_not_mem (l : List Char) (h : ∀ c ∈ l, ¬ c = '@') :
    rsplitOnce l = (l, none) := by
  have hs : splitFirst '@' l.reverse = (l.reverse, none) :=
    splitFirst_of_not_mem _ _ fun c hc => h c (List.mem_reverse.mp hc)
  simp [rsplitOnce, hs]

theorem rsplitOnce_append (a b : List Char) (h : ∀ c ∈ b, ¬ c = '@') :
    rsplitOnce (a ++ '@' :: b) = (a, some b) := by
  have hrev : (a ++ '@' :: b).reverse = b.reverse ++ '@' :: a.reverse := by
    simp [List.reverse_append]
  have hs : splitFirst '@' (b.reverse ++ '@' :: a.reverse) = (b.reverse, some a.reverse) :=
    splitFirst_append _ _ _ fun c hc => h c (List.mem_reverse.mp hc)
  simp [rsplitOnce, hrev, hs]

theorem rsplitOnce_fst_cases (l : List Char) :
    (rsplitOnce l).1 = l ∨ ∃ s, l = (rsplitOnce l).1 ++ '@' :: s := by
  unfold rsplitOnce
  rcases hs : splitFirst '@' l.reverse with ⟨a, ob⟩
  cases ob with
  | none => left; rfl
  | some b =>
    right
    refine ⟨a.reverse, ?_⟩
    have hl : l.reverse = a ++ '@' :: b := splitFirst_eq_some _ _ _ _ hs
    have hll : l = (a ++ '@' :: b).reverse := by
      rw [← hl, List.reverse_reverse]
    rw [hll]
    simp [List.reverse_append]

theorem nbspToSpace_of_not_mem (l : List Char) (h : ∀ c ∈ l, ¬ c = '\xa0') :
    nbspToSpace l = l := by
  induction l with
  | nil => rfl
  | cons c l ih =>
    have hc : ¬ c = '\xa0' := h c (List.mem_cons_self _ _)
    have ih' : nbspToSpace l = l := ih fun d hd => h d (List.mem_cons_of_mem _ hd)
    rw [show nbspToSpace (c :: l) = (if c = '\xa0' then ' ' else c) :: nbspToSpace l from rfl,
      if_neg hc, ih']

theorem nbspToSpace_append (a b : List Char) :
    nbspToSpace (a ++ b) = nbspToSpace a ++ nbspToSpace b :=
  List.map_append _ _ _


/-! ## Claim theorems about `parse_cmd` -/

/-- Claim C5, counterexample to the claim as stated: for the valid command
text `/cmd a<nbsp>b` (U+00A0 between `a` and `b`, no leading or trailing
whitespace, so no trimming happens), source line 61 also replaces the
interior non-breaking space by a plain space, so the returned rest is
`"a b"`, not the exact substring `"a\u00A0b"` after the first space. -/
theorem parse_cmd_nbsp_counterexample :
    parse_cmd "bot" "/cmd a\u00A0b" = (some "cmd", some "a b") ∧
    parse_cmd "bot" "/cmd a\u00A0b" ≠ (some "cmd", some "a\u00A0b") := by
  constructor <;> decide

/-- Claim C5 (amended): for a trimmed text `/<verb> <rest>` (verb nonempty,
free of space, `@` and non-breaking space), `parse_cmd` returns the verb and
exactly the substring after the first space with any non-breaking spaces
replaced by plain spaces; in particular, for a rest free of non-breaking
spaces it is exactly that substring. -/
theorem parse_cmd_valid_rest (u v r text : String)
    (hshape : text.data = '/' :: (v.data ++ ' ' :: r.data))
    (hv : v.data ≠ [])
    (hvc : ∀ c ∈ v.data, ¬ c = ' ' ∧ ¬ c = '@' ∧ ¬ c = '\xa0')
    (htrim : pyStrip text.data = text.data) :
    parse_cmd u text = (some v, some (strNbsp r)) := by
  have hslash : ¬ ('/' : Char) = '\xa0' := by decide
  have hvId : nbspToSpace v.data = v.data :=
    nbspToSpace_of_not_mem _ fun c hc => (hvc c hc).2.2
  have h1 : nbspToSpace (' ' :: r.data) = ' ' :: nbspToSpace r.data := by
    rw [show nbspToSpace (' ' :: r.data)
        = (if (' ' : Char) = '\xa0' then ' ' else ' ') :: nbspToSpace r.data from rfl]
    simp
  have hcore : coreOf text = ('/' :: v.data) ++ ' ' :: nbspToSpace r.data := by
    rw [coreOf, htrim, hshape,
      show nbspToSpace ('/' :: (v.data ++ ' ' :: r.data))
        = (if ('/' : Char) = '\xa0' then ' ' else '/')
            :: nbspToSpace (v.data ++ ' ' :: r.data) from rfl,
      if_neg hslash, nbspToSpace_append, hvId, h1]
    rfl
  have hsplit : splitFirst ' ' (('/' :: v.data) ++ ' ' :: nbspToSpace r.data)
      = ('/' :: v.data, some (nbspToSpace r.data)) := by
    refine splitFirst_append _ _ _ ?_
    intro c hc
    rcases List.mem_cons.mp hc with h | h
    · subst h; decide
    · exact (hvc c h).1
  have hrs : rsplitOnce ('/' :: v.data) = ('/' :: v.data, none) := by
    refine rsplitOnce_of_not_mem _ ?_
    intro c hc
    rcases List.mem_cons.mp hc with h | h
    · subst h; decide
    · exact (hvc c h).2.1
  have hlen : ¬ v.data.length = 0 := fun h0 => hv (List.length_eq_zero.mp h0)
  have hcond : ¬ (('/' :: v.data).length < 2 ∨ ('/' :: v.data).headD ' ' ≠ '/') := by
    simp only [not_or]
    constructor
    · simp only [List.length_cons]
      omega
    · simp
  simp only [parse_cmd, hcore, hsplit, hrs]
  rw [if_neg hcond]
  rfl

/-- Closed instance of `parse_cmd_valid_rest`, all hypotheses discharged at
a concrete input. -/
theorem parse_cmd_valid_rest_witness :
    parse_cmd "bot" "/pkgver linux+kernel" = (some "pkgver", some "linux+kernel") := by
  have h := parse_cmd_valid_rest "bot" "pkgver" "linux+kernel" "/pkgver linux+kernel"
    (by decide) (by decide) (by decide) (by decide)
  exact h.trans (by decide)

/-- Claim C6: for a trimmed text whose head token is `/<verb>@<handle>`
(verb nonempty; verb and handle free of space, `@` and non-breaking space),
either followed by a space and a remainder or standing alone (so the
remainder is the empty string): a handle different from the client's
username yields `(none, none)` and the client's own username yields the
verb and the remainder. -/
theorem parse_cmd_handle_suffix (u v hdl r text : String)
    (hshape : text.data = '/' :: (v.data ++ '@' :: (hdl.data ++ ' ' :: r.data)) ∨
      (text.data = '/' :: (v.data ++ '@' :: hdl.data) ∧ r = ""))
    (hv : v.data ≠ [])
    (hvc : ∀ c ∈ v.data, ¬ c = ' ' ∧ ¬ c = '@' ∧ ¬ c = '\xa0')
    (hhc : ∀ c ∈ hdl.data, ¬ c = ' ' ∧ ¬ c = '@' ∧ ¬ c = '\xa0')
    (htrim : pyStrip text.data = text.data) :
    (hdl ≠ u → parse_cmd u text = (none, none)) ∧
    (hdl = u → parse_cmd u text = (some v, some (strNbsp r))) := by
  have hslash : ¬ ('/' : Char) = '\xa0' := by decide
  have hat : ¬ ('@' : Char) = '\xa0' := by decide
  have hvId : nbspToSpace v.data = v.data :=
    nbspToSpace_of_not_mem _ fun c hc => (hvc c hc).2.2
  have hhId : nbspToSpace hdl.data = hdl.data :=
    nbspToSpace_of_not_mem _ fun c hc => (hhc c hc).2.2
  have hrs : rsplitOnce (('/' :: v.data) ++ '@' :: hdl.data)
      = ('/' :: v.data, some hdl.data) :=
    rsplitOnce_append _ _ fun c hc => (hhc c hc).2.1
  have hlen : ¬ v.data.length = 0 := fun h0 => hv (List.length_eq_zero.mp h0)
  have hcond : ¬ (('/' :: v.data).length < 2 ∨ ('/' :: v.data).headD ' ' ≠ '/') := by
    simp only [not_or]
    constructor
    · simp only [List.length_cons]
      omega
    · simp
  rcases hshape with hshape | ⟨hshape, hr⟩
  · have h1 : nbspToSpace (' ' :: r.data) = ' ' :: nbspToSpace r.data := by
      rw [show nbspToSpace (' ' :: r.data)
          = (if (' ' : Char) = '\xa0' then ' ' else ' ') :: nbspToSpace r.data from rfl]
      simp
    have hcore : coreOf text
        = (('/' :: v.data) ++ '@' :: hdl.data) ++ ' ' :: nbspToSpace r.data := by
      rw [coreOf, htrim, hshape,
        show nbspToSpace ('/' :: (v.data ++ '@' :: (hdl.data ++ ' ' :: r.data)))
          = (if ('/' : Char) = '\xa0' then ' ' else '/')
              :: nbspToSpace (v.data ++ '@' :: (hdl.data ++ ' ' :: r.data)) from rfl,
        if_neg hslash, nbspToSpace_append,
        show nbspToSpace ('@' :: (hdl.data ++ ' ' :: r.data))
          = (if ('@' : Char) = '\xa0' then ' ' else '@')
              :: nbspToSpace (hdl.data ++ ' ' :: r.data) from rfl,
        if_neg hat, nbspToSpace_append, hvId, hhId, h1]
      simp [List.append_assoc]
    have hsplit : splitFirst ' ' ((('/' :: v.data) ++ '@' :: hdl.data) ++ ' ' :: nbspToSpace r.data)
        = (('/' :: v.data) ++ '@' :: hdl.data, some (nbspToSpace r.data)) := by
      refine splitFirst_append _ _ _ ?_
      intro c hc
      simp only [List.mem_append, List.mem_cons] at hc
      rcases hc with (h | h) | h | h
      · subst h; decide
      · exact (hvc c h).1
      · subst h; decide
      · exact (hhc c h).1
    constructor
    · intro hne
      have hdne : hdl.data ≠ u.data := by
        intro hd
        exact hne (congrArg String.mk hd)
      simp only [parse_cmd, hcore, hsplit, hrs]
      rw [if_neg hcond]
      simp [hdne]
    · intro heq
      subst heq
      simp only [parse_cmd, hcore, hsplit, hrs]
      rw [if_neg hcond]
      simp
      rfl
  · subst hr
    have hcore : coreOf text = ('/' :: v.data) ++ '@' :: hdl.data := by
      rw [coreOf, htrim, hshape,
        show nbspToSpace ('/' :: (v.data ++ '@' :: hdl.data))
          = (if ('/' : Char) = '\xa0' then ' ' else '/')
              :: nbspToSpace (v.data ++ '@' :: hdl.data) from rfl,
        if_neg hslash, nbspToSpace_append,
        show nbspToSpace ('@' :: hdl.data)
          = (if ('@' : Char) = '\xa0' then ' ' else '@') :: nbspToSpace hdl.data from rfl,
        if_neg hat, hvId, hhId]
      rfl
    have hsplit : splitFirst ' ' (('/' :: v.data) ++ '@' :: hdl.data)
        = (('/' :: v.data) ++ '@' :: hdl.data, none) := by
      refine splitFirst_of_not_mem _ _ ?_
      intro c hc
      simp only [List.mem_append, List.mem_cons] at hc
      rcases hc with (h | h) | h | h
      · subst h; decide
      · exact (hvc c h).1
      · subst h; decide
      · exact (hhc c h).1
    constructor
    · intro hne
      have hdne : hdl.data ≠ u.data := by
        intro hd
        exact hne (congrArg String.mk hd)
      simp only [parse_cmd, hcore, hsplit, hrs]
      rw [if_neg hcond]
      simp [hdne]
    · intro heq
      subst heq
      simp only [parse_cmd, hcore, hsplit, hrs]
      rw [if_neg hcond]
      simp
      rfl

/-- Closed instance of `parse_cmd_handle_suffix`: the mismatching handle,
the matching handle with a remainder, and the bare `/verb@handle` with its
empty remainder, at concrete inputs. -/
theorem parse_cmd_handle_suffix_witness :
    parse_cmd "me" "/search@other foo" = (none, none) ∧
    parse_cmd "other" "/search@other foo" = (some "search", some "foo") ∧
    parse_cmd "bot" "/start@bot" = (some "start", some "") := by
  have h1 := (parse_cmd_handle_suffix "me" "search" "other" "foo" "/search@other foo"
    (Or.inl (by decide)) (by decide) (by decide) (by decide) (by decide)).1 (by decide)
  have h2 := (parse_cmd_handle_suffix "other" "search" "other" "foo" "/search@other foo"
    (Or.inl (by decide)) (by decide) (by decide) (by decide) (by decide)).2 rfl
  have h3 := (parse_cmd_handle_suffix "bot" "start" "bot" "" "/start@bot"
    (Or.inr ⟨by decide, rfl⟩) (by decide) (by decide) (by decide) (by decide)).2 rfl
  exact ⟨h1, h2.trans (by decide), h3.trans (by decide)⟩

/-- Claim C7: `parse_cmd` is total (it is a Lean function) and on every
invalid text — empty after trimming, or not starting with `/` after
trimming/normalization, or a head token whose part before the handle suffix
is shorter than 2 characters (verb shorter than 1 after the marker), or a
handle suffix different from the client's username — it returns
`(none, none)` rather than failing. -/
theorem parse_cmd_invalid_none (u text : String)
    (h : pyStrip text.data = [] ∨
         (coreOf text).headD ' ' ≠ '/' ∨
         (rsplitOnce (splitFirst ' ' (coreOf text)).1).1.length < 2 ∨
         (∃ suf, (rsplitOnce (splitFirst ' ' (coreOf text)).1).2 = some suf ∧ suf ≠ u.data)) :
    parse_cmd u text = (none, none) := by
  rcases h with h1 | h2 | h3 | ⟨suf, hsuf, hne⟩
  · have hc : coreOf text = [] := by rw [coreOf, h1]; rfl
    simp [parse_cmd, hc, splitFirst, rsplitOnce]
  · rcases hcv : coreOf text with _ | ⟨c, l⟩
    · simp [parse_cmd, hcv, splitFirst, rsplitOnce]
    · have hc : ¬ c = '/' := by
        rw [hcv] at h2
        simpa using h2
      by_cases hcs : c = ' '
      · have hs : splitFirst ' ' (coreOf text) = ([], some l) := by
          rw [hcv]; simp [splitFirst, hcs]
        simp [parse_cmd, hs, rsplitOnce, splitFirst]
      · have hs : splitFirst ' ' (coreOf text)
            = (c :: (splitFirst ' ' l).1, (splitFirst ' ' l).2) := by
          rw [hcv]; simp [splitFirst, hcs]
        rcases rsplitOnce_fst_cases (c :: (splitFirst ' ' l).1) with hca | ⟨s, hcs2⟩
        · have hhd : (rsplitOnce (c :: (splitFirst ' ' l).1)).1.headD ' ' ≠ '/' := by
            rw [hca]; simpa using hc
          simp only [parse_cmd, hs]
          rw [if_pos (Or.inr hhd)]
        · cases hq : (rsplitOnce (c :: (splitFirst ' ' l).1)).1 with
          | nil =>
            have hl2 : (rsplitOnce (c :: (splitFirst ' ' l).1)).1.length < 2 := by
              rw [hq]; simp
            simp only [parse_cmd, hs]
            rw [if_pos (Or.inl hl2)]
          | cons c0 tl =>
            rw [hq] at hcs2
            simp only [List.cons_append] at hcs2
            injection hcs2 with hch htl
            have hhd : (rsplitOnce (c :: (splitFirst ' ' l).1)).1.headD ' ' ≠ '/' := by
              rw [hq]
              simpa [← hch] using hc
            simp only [parse_cmd, hs]
            rw [if_pos (Or.inr hhd)]
  · simp only [parse_cmd]
    rw [if_pos (Or.inl h3)]
  · simp only [parse_cmd]
    by_cases hcond : (rsplitOnce (splitFirst ' ' (coreOf text)).1).1.length < 2 ∨
        (rsplitOnce (splitFirst ' ' (coreOf text)).1).1.headD ' ' ≠ '/'
    · rw [if_pos hcond]
    · rw [if_neg hcond, hsuf]
      simp [hne]


/-! ## Updates, events, transport, and `bot_api` -/

/-- A JSON value inside an update object: the integer `update_id`, or an
opaque payload object (message, edited message, ...). -/
inductive UpdVal
  | vint (n : Int)
  | vpay (p : String)
deriving DecidableEq

/-- One update as delivered by `getUpdates`: a JSON object, i.e. a key/value
list in insertion order (the order `upd.items()` iterates). -/
structure Update where
  entries : List (String × UpdVal)
deriving DecidableEq

/-- Observable effects of the client, in order of occurrence: an HTTP POST
of a method (source line 46), a `time.sleep` (lines 53, 81, 94; time in the
source's seconds), a synchronous callback invocation (line 93), a logged
swallowed exception (line 83), and a `getUpdates` fetch issued with the
current cursor (line 78). -/
inductive Event
  | post (method : String)
  | sleep (t : ℚ)
  | dispatch (kind : String) (payload : UpdVal)
  | logError
  | fetch (offset : Option Int)
deriving DecidableEq

/-- The decoded response envelope (source lines 48-49, 22-27): `ok`,
`result`, and for failures `description`, `error_code` and the optional
`parameters` object (modelled as a string-to-int object, enough for the
`retry_after` hint). -/
structure ApiResp where
  ok : Bool
  result : String
  description : String
  error_code : Int
  parameters : Option (List (String × Int))
deriving DecidableEq

/-- What one POST attempt does at the transport level: raise some exception
(connection error, timeout, malformed body — anything before `break` on
line 50), or deliver a decoded envelope. -/
inductive Attempt
  | fail
  | success (resp : ApiResp)

/-- How a `bot_api` call ends: `return ret['result']`, `raise
BotAPIFailed(ret)`, the re-raised transport exception of line 55, or the
`NameError` Python would raise on line 56 if the loop ended without `ret`
ever being bound (unreachable from `range(3)` with the `att < 1` gate). -/
inductive ApiOutcome
  | okRes (result : String)
  | botAPIFailed (resp : ApiResp)
  | transportErr
  | nameErr
deriving DecidableEq

structure BotApiOut where
  out : ApiOutcome
  trace : List Event
deriving DecidableEq

/-- `dict.get` / `dict[...]` on a JSON object modelled as a key/value list. -/
def alookup {α : Type} (k : String) : List (String × α) → Option α
  | [] => none
  | (k', v) :: rest => if k' = k then some v else alookup k rest

/-- The `for att in range(3)` loop of `bot_api` (source lines 44-55),
walking the remaining attempt indices.  Each iteration POSTs; on a decoded
envelope it breaks out into the `ret['ok']` check (lines 56-58); on a
transport exception it sleeps `(att + 1) * 2` and retries — but only when
`att < 1` — and otherwise re-raises. -/
def botApiGo (transport : Nat → Attempt) (method : String) :
    List Nat → List Event → BotApiOut
  | [], evs => ⟨.nameErr, evs⟩
  | att :: rest, evs =>
    let evs1 := evs ++ [Event.post method]
    match transport att with
    | .success r =>
      if r.ok then ⟨.okRes r.result, evs1⟩ else ⟨.botAPIFailed r, evs1⟩
    | .fail =>
      if att < 1 then
        botApiGo transport method rest (evs1 ++ [Event.sleep (((att + 1) * 2 : Nat) : ℚ)])
      else ⟨.transportErr, evs1⟩

/-- `TelegramBotClient.bot_api` (source lines 43-58), with the network
abstracted as one `Attempt` per attempt index. -/
def bot_api (transport : Nat → Attempt) (method : String) : BotApiOut :=
  botApiGo transport method [0, 1, 2] []

example :
    bot_api (fun att => if att = 0 then .fail else .success ⟨true, "r", "", 0, none⟩) "m"
      = ⟨.okRes "r", [.post "m", .sleep 2, .post "m"]⟩ := by decide

example :
    bot_api (fun _ => .success ⟨false, "", "flood", 429, some [("retry_after", 4)]⟩) "m"
      = ⟨.botAPIFailed ⟨false, "", "flood", 429, some [("retry_after", 4)]⟩, [.post "m"]⟩ := by
  decide

/-- Claim C3 (code bug): on persistent transport failure `bot_api` makes
only TWO attempts, not three, and the only backoff sleep is the 2-unit one
before the second attempt; the 4-unit sleep and the third attempt are
unreachable because the retry gate on source line 52 is `att < 1` even
though the loop header on line 44 is `range(3)` and the backoff formula on
line 53 is `(att + 1) * 2`.  The trace below holds one `.post` per attempt:
exactly two attempts, one sleep of 2, never a sleep of 4. -/
theorem bot_api_two_attempts_bug :
    bot_api (fun _ => Attempt.fail) "getUpdates" =
      ⟨.transportErr, [.post "getUpdates", .sleep 2, .post "getUpdates"]⟩ := by
  decide

/-- `TelegramBotClient.__getattr__` (source lines 96-97): any attribute not
defined on the class becomes `lambda **kwargs: self.bot_api(name, **kwargs)`
— a remote call of that attribute's name. -/
def getattrCall (name : String) (transport : Nat → Attempt) : BotApiOut :=
  bot_api transport name

def okTransport : Nat → Attempt :=
  fun _ => .success ⟨true, "result", "", 0, none⟩

/-- Claim C4, counterexample: the class defines no `requestStop` method, so
`client.requestStop()` goes through `__getattr__` and performs a remote
call of the method name `requestStop` (one HTTP POST in the trace); nothing
in `bot_api` reads or writes the `run` flag (it is not even in scope of the
embedded `bot_api`), so the call does not stop the loop. -/
theorem requestStop_counterexample :
    getattrCall "requestStop" okTransport = ⟨.okRes "result", [.post "requestStop"]⟩ := by
  decide

/-! ## The `serve` loop -/

/-- What a registered callback does when invoked: return normally, set
`cli.run = False` to request a stop, or raise.  Per the ownership rule of
the collaborators (they never write the cursor), this is the full range of
callback behavior `serve` can observe. -/
inductive CbEffect
  | ok
  | stop
  | raise

/-- A callback registered in `serve`'s `**kwargs`. -/
def Callback : Type := UpdVal → CbEffect

/-- `serve`'s `**kwargs` mapping from payload kind to callback. -/
def Kwargs : Type := List (String × Callback)

/-- Exceptions that can propagate out of `serve`: reading the unbound local
`updates` (line 85 after the fall-through from line 81), a callback raising
(line 93), and the `KeyError`/`TypeError` or `IndexError` of line 87 on a
malformed batch. -/
inductive PyExn
  | unboundLocal
  | cbError
  | keyError
  | indexError
deriving DecidableEq

/-- The mutable client state `serve` interacts with: `self.offset`,
`self.run`, and — crucially — the method-local variable `updates`, which
persists across loop iterations and is `none` while still unbound. -/
structure ServeState where
  offset : Option Int
  run : Bool
  updatesVar : Option (List Update)
deriving DecidableEq

structure DispOut where
  run : Bool
  events : List Event
  exn : Option PyExn
deriving DecidableEq

/-- The inner dispatch loop `for k, v in upd.items()` (source lines 89-93):
skip the `update_id` entry, look the key up in `kwargs`, and invoke the
callback on the payload.  A raising callback aborts everything (no handler
in `serve`); a stop request just clears the run flag and dispatch goes on. -/
def dispatchOne (kwargs : Kwargs) (run : Bool) : List (String × UpdVal) → DispOut
  | [] => ⟨run, [], none⟩
  | (k, v) :: rest =>
    if k = "update_id" then dispatchOne kwargs run rest
    else
      match alookup k kwargs with
      | none => dispatchOne kwargs run rest
      | some cb =>
        match cb v with
        | .ok =>
          let d := dispatchOne kwargs run rest
          ⟨d.run, .dispatch k v :: d.events, d.exn⟩
        | .stop =>
          let d := dispatchOne kwargs false rest
          ⟨d.run, .dispatch k v :: d.events, d.exn⟩
        | .raise => ⟨run, [.dispatch k v], some .cbError⟩

/-- The outer dispatch loop `for upd in updates` (source line 88). -/
def dispatchBatch (kwargs : Kwargs) (run : Bool) : List Update → DispOut
  | [] => ⟨run, [], none⟩
  | u :: us =>
    let d := dispatchOne kwargs run u.entries
    match d.exn with
    | some e => ⟨d.run, d.events, some e⟩
    | none =>
      let d' := dispatchBatch kwargs d.run us
      ⟨d'.run, d.events ++ d'.events, d'.exn⟩

structure StepOut where
  next : ServeState
  events : List Event
  exn : Option PyExn
deriving DecidableEq

/-- The fixed `time.sleep(.2)` pause of source line 94, as the exact
rational 1/5 = 0.2, built structurally so that proofs can evaluate it. -/
def pauseLen : ℚ := ⟨1, 5, by decide, by decide⟩

/-- `pauseLen` is the 0.2 literal of the source. -/
theorem pauseLen_eq : pauseLen = 0.2 := by
  rw [pauseLen, Rat.mk'_eq_divInt]
  norm_num [Rat.divInt_eq_div]

/-- Source lines 87-94 for a non-empty `updates` list: set
`self.offset = updates[-1]["update_id"] + 1` FIRST, then dispatch, then
`time.sleep(.2)`.  A missing or non-integer `update_id` on the last update
is the `KeyError`/`TypeError` Python would raise on line 87, and an empty
list the `IndexError` of `updates[-1]` (unreachable: line 85 guards it). -/
def processBatch (kwargs : Kwargs) (s : ServeState) (us : List Update) : StepOut :=
  match us.getLast? with
  | none => ⟨s, [], some .indexError⟩
  | some lastU =>
    match alookup "update_id" lastU.entries with
    | some (.vint n) =>
      let d := dispatchBatch kwargs s.run us
      match d.exn with
      | some e => ⟨⟨some (n + 1), d.run, s.updatesVar⟩, d.events, some e⟩
      | none => ⟨⟨some (n + 1), d.run, s.updatesVar⟩, d.events ++ [.sleep pauseLen], none⟩
    | _ => ⟨s, [], some .keyError⟩

/-- How one `getUpdates` call inside `serve` (source line 78) can end:
normally with a batch, with `BotAPIFailed` (carrying `ex.parameters`), or
with any other exception (e.g. a transport error surviving the retry). -/
inductive FetchOutcome
  | ok (updates : List Update)
  | failed (parameters : Option (List (String × Int)))
  | otherExn

/-- One iteration of the `while self.run` body given the fetch outcome
(source lines 77-94).  The `except BotAPIFailed` arm (lines 79-81) sleeps
on a truthy `parameters` containing `retry_after` and then — having no
`continue` — falls through to line 85, which reads the local `updates`:
`UnboundLocalError` if never assigned, otherwise the STALE previous batch,
which then gets re-processed.  The `except Exception` arm (lines 82-84)
logs and continues. -/
def serveStep (kwargs : Kwargs) (s : ServeState) : FetchOutcome → StepOut
  | .ok us =>
    let s1 : ServeState := ⟨s.offset, s.run, some us⟩
    if us = [] then ⟨s1, [], none⟩
    else processBatch kwargs s1 us
  | .failed params =>
    let evs : List Event :=
      match params with
      | none => []
      | some ps =>
        if ps = [] then []
        else
          match alookup "retry_after" ps with
          | some n => [.sleep (n : ℚ)]
          | none => []
    match s.updatesVar with
    | none => ⟨s, evs, some .unboundLocal⟩
    | some us =>
      if us = [] then ⟨s, evs, none⟩
      else
        let out := processBatch kwargs s us
        ⟨out.next, evs ++ out.events, out.exn⟩
  | .otherExn => ⟨s, [.logError], none⟩

structure RunOut where
  final : ServeState
  trace : List Event
  exn : Option PyExn
deriving DecidableEq

/-- `TelegramBotClient.serve` (source lines 72-94) observed along a finite
script of fetch outcomes: check `self.run` at the top, record the fetch
with the cursor it uses, run one iteration; a propagating exception ends
the run with that exception.  An exhausted script ends observation with the
state reached. -/
def serveLoop (kwargs : Kwargs) : ServeState → List FetchOutcome → RunOut
  | s, [] => ⟨s, [], none⟩
  | s, o :: rest =>
    if s.run then
      let out := serveStep kwargs s o
      match out.exn with
      | some e => ⟨out.next, .fetch s.offset :: out.events, some e⟩
      | none =>
        let r := serveLoop kwargs out.next rest
        ⟨r.final, .fetch s.offset :: (out.events ++ r.trace), r.exn⟩
    else ⟨s, [], none⟩

/-- The two updates of the end-to-end scenario of the spec. -/
def u5 : Update := ⟨[("update_id", .vint 5), ("message", .vpay "m1")]⟩

def u7 : Update := ⟨[("update_id", .vint 7), ("message", .vpay "m2")]⟩

def cbOk : Kwargs := [("message", fun _ => .ok)]

/-- A fresh client entering `serve`: no cursor, running, `updates` unbound. -/
def s0 : ServeState := ⟨none, true, none⟩


/-! ## Claim theorems about `serve`: scenarios -/

/-- Claim C1 (code bug): a `BotAPIFailed` with a `retry_after` hint does
sleep, but the handler then falls through to `if not updates:` instead of
continuing.  First conjunct: on the very first iteration the local
`updates` is unbound, so after sleeping 5 the loop dies with
`UnboundLocalError` — the error DOES raise out of `serve`.  Remaining
conjuncts: after an earlier non-empty batch, the failed iteration does not
crash but re-dispatches the stale batch (`m1` is dispatched a second time
in the same trace), contradicting "no updates are dispatched from that
failed iteration". -/
theorem serve_retry_after_bug :
    serveLoop [] s0 [.failed (some [("retry_after", 5)])] =
      ⟨s0, [.fetch none, .sleep 5], some .unboundLocal⟩ ∧
    (serveLoop cbOk s0 [.ok [u5], .failed (some [("retry_after", 3)])]).trace =
      [.fetch none, .dispatch "message" (.vpay "m1"), .sleep pauseLen,
       .fetch (some 6), .sleep 3, .dispatch "message" (.vpay "m1"), .sleep pauseLen] ∧
    (serveLoop cbOk s0 [.ok [u5], .failed (some [("retry_after", 3)])]).exn = none := by
  refine ⟨?_, ?_, ?_⟩ <;> decide

/-- Claim C8: on the batch `[u5, u7]` with a `message` callback registered,
`serve` sets the cursor to 8 and dispatches `(client, m1)` then
`(client, m2)` in batch order.  Second conjunct: even a callback registered
under the key `update_id` is never invoked (the `k == 'update_id'` guard of
source line 90 fires before the lookup).  Third conjunct: payload kinds
with no registered callback are silently skipped. -/
theorem serve_batch_scenario :
    serveLoop cbOk s0 [.ok [u5, u7]] =
      ⟨⟨some 8, true, some [u5, u7]⟩,
       [.fetch none, .dispatch "message" (.vpay "m1"), .dispatch "message" (.vpay "m2"),
        .sleep pauseLen], none⟩ ∧
    (serveLoop [("update_id", fun _ => .ok), ("message", fun _ => .ok)] s0 [.ok [u5]]).trace =
      [.fetch none, .dispatch "message" (.vpay "m1"), .sleep pauseLen] ∧
    (serveLoop cbOk s0 [.ok [⟨[("update_id", .vint 9), ("edited_message", .vpay "x")]⟩]]).trace =
      [.fetch none, .sleep pauseLen] := by
  refine ⟨?_, ?_, ?_⟩ <;> decide

/-- Claim C9: an empty batch leaves the cursor and the run flag unchanged,
dispatches nothing, emits no sleep at all (in particular not the 0.2 pause
reserved for non-empty batches), raises nothing, and the loop goes
directly on to the next fetch of the remaining script. -/
theorem serve_empty_batch (kwargs : Kwargs) (s : ServeState) (rest : List FetchOutcome)
    (h : s.run = true) :
    (serveStep kwargs s (.ok [])).next.offset = s.offset ∧
    (serveStep kwargs s (.ok [])).next.run = s.run ∧
    (serveStep kwargs s (.ok [])).events = [] ∧
    (serveStep kwargs s (.ok [])).exn = none ∧
    serveLoop kwargs s (.ok [] :: rest) =
      ⟨(serveLoop kwargs ⟨s.offset, s.run, some []⟩ rest).final,
       .fetch s.offset :: (serveLoop kwargs ⟨s.offset, s.run, some []⟩ rest).trace,
       (serveLoop kwargs ⟨s.offset, s.run, some []⟩ rest).exn⟩ := by
  obtain ⟨off, run, uv⟩ := s
  have h' : run = true := h
  subst h'
  exact ⟨rfl, rfl, rfl, rfl, rfl⟩

/-- Closed instance of `serve_empty_batch` at a concrete state and script. -/
theorem serve_empty_batch_witness :
    (serveStep cbOk s0 (.ok [])).next.offset = s0.offset ∧
    (serveStep cbOk s0 (.ok [])).next.run = s0.run ∧
    (serveStep cbOk s0 (.ok [])).events = [] ∧
    (serveStep cbOk s0 (.ok [])).exn = none ∧
    serveLoop cbOk s0 (.ok [] :: []) =
      ⟨(serveLoop cbOk ⟨s0.offset, s0.run, some []⟩ []).final,
       .fetch s0.offset :: (serveLoop cbOk ⟨s0.offset, s0.run, some []⟩ []).trace,
       (serveLoop cbOk ⟨s0.offset, s0.run, some []⟩ []).exn⟩ :=
  serve_empty_batch cbOk s0 [] rfl

/-- Claim C4 (amended): there is no dedicated `requestStop` operation (see
`requestStop_counterexample`); stopping is done by clearing the `run`
attribute directly.  First conjunct: once run-state is false, `serve` exits
at the top of the loop without fetching anything.  Second conjunct: when a
callback clears the flag mid-iteration, the in-flight iteration still
completes (its events happen) and the loop then exits, consuming none of
the remaining script. -/
theorem serve_stop_exits :
    (∀ (kwargs : Kwargs) (s : ServeState) (script : List FetchOutcome),
      s.run = false → serveLoop kwargs s script = ⟨s, [], none⟩) ∧
    (∀ (kwargs : Kwargs) (s : ServeState) (o : FetchOutcome) (rest : List FetchOutcome),
      s.run = true → (serveStep kwargs s o).exn = none →
      (serveStep kwargs s o).next.run = false →
      serveLoop kwargs s (o :: rest) =
        ⟨(serveStep kwargs s o).next,
         .fetch s.offset :: (serveStep kwargs s o).events, none⟩) := by
  constructor
  · intro kwargs s script hrun
    cases script with
    | nil => rfl
    | cons o rest => simp [serveLoop, hrun]
  · intro kwargs s o rest hrun hexn hstop
    have hdone : serveLoop kwargs (serveStep kwargs s o).next rest =
        ⟨(serveStep kwargs s o).next, [], none⟩ := by
      cases rest with
      | nil => rfl
      | cons o2 r2 => simp [serveLoop, hstop]
    simp only [serveLoop, hrun, if_true, hexn, hdone]
    simp

/-- An update whose `message` callback requests a stop. -/
def uStop : Update := ⟨[("update_id", .vint 11), ("message", .vpay "stop")]⟩

def cbStop : Kwargs := [("message", fun _ => .stop)]

/-- Closed instance of `serve_stop_exits`: the stop requested while
dispatching `uStop` lets the iteration finish and the loop never consumes
the second script entry. -/
theorem serve_stop_exits_witness :
    serveLoop cbStop s0 [.ok [uStop], .ok [u5]] =
      ⟨(serveStep cbStop s0 (.ok [uStop])).next,
       .fetch s0.offset :: (serveStep cbStop s0 (.ok [uStop])).events, none⟩ :=
  serve_stop_exits.2 cbStop s0 (.ok [uStop]) [.ok [u5]] rfl (by decide) (by decide)


/-! ## Cursor facts: identifiers, batch well-formedness, the loop invariant -/

/-- `upd["update_id"]` read as an integer, when present. -/
def getId (u : Update) : Option Int :=
  match alookup "update_id" u.entries with
  | some (.vint n) => some n
  | _ => none

/-- The identifiers of a batch, in batch order. -/
def batchIds (us : List Update) : List Int := us.filterMap getId

/-- `updates[-1]["update_id"]`, the value serve's line 87 is built from. -/
def lastId (us : List Update) : Option Int :=
  match us.getLast? with
  | some u => getId u
  | none => none

/-- Order on cursor values: an unset cursor is below everything, and a set
cursor never moves to unset. -/
def offLE : Option Int → Option Int → Prop
  | none, _ => True
  | some _, none => False
  | some a, some b => a ≤ b

instance offLE.dec : ∀ a b : Option Int, Decidable (offLE a b)
  | none, _ => .isTrue trivial
  | some _, none => .isFalse fun h => h
  | some a, some b => inferInstanceAs (Decidable (a ≤ b))

theorem offLE_refl : ∀ a : Option Int, offLE a a
  | none => trivial
  | some a => le_refl a

theorem offLE_trans : ∀ {a b c : Option Int}, offLE a b → offLE b c → offLE a c := by
  intro a b c h1 h2
  cases a with
  | none => trivial
  | some x =>
    cases b with
    | none => exact (h1 : False).elim
    | some y =>
      cases c with
      | none => exact (h2 : False).elim
      | some z => exact le_trans h1 h2

theorem offLE_mono_right {a : Option Int} {m m' : Int}
    (h : offLE a (some m)) (hm : m ≤ m') : offLE a (some m') := by
  cases a with
  | none => trivial
  | some x => exact le_trans h hm

/-- Strictly increasing list of identifiers (decidably stated). -/
def IdsSorted : List Int → Prop
  | [] => True
  | [_] => True
  | a :: b :: t => a < b ∧ IdsSorted (b :: t)

instance IdsSorted.dec : ∀ l : List Int, Decidable (IdsSorted l)
  | [] => .isTrue trivial
  | [_] => .isTrue trivial
  | _ :: b :: t =>
    have : Decidable (IdsSorted (b :: t)) := IdsSorted.dec (b :: t)
    inferInstanceAs (Decidable (_ ∧ _))

/-- The platform's contract for one fetched batch, as the spec's data model
states it: every update has an integer identifier, identifiers are strictly
increasing within the batch, and — since `getUpdates` is called with the
cursor as `offset` — no identifier is below the current cursor. -/
def BatchOk (off : Option Int) (us : List Update) : Prop :=
  (∀ u ∈ us, (getId u).isSome = true) ∧
  IdsSorted (batchIds us) ∧
  ∀ i ∈ batchIds us, offLE off (some i)

/-- `BatchOk` for the batch of a successful fetch; failures are
unconstrained. -/
def OutcomeOk (off : Option Int) : FetchOutcome → Prop
  | .ok us => BatchOk off us
  | _ => True

/-- Each successful fetch of the script satisfies the platform contract at
the cursor `serve` holds when issuing it. -/
def ScriptOk (kwargs : Kwargs) : ServeState → List FetchOutcome → Prop
  | _, [] => True
  | s, o :: rest => OutcomeOk s.offset o ∧ ScriptOk kwargs (serveStep kwargs s o).next rest

/-- The loop invariant tying the stale `updates` local to the cursor: when
a non-empty batch is stored, the cursor already sits one past its last
identifier (line 87 ran when it was stored). -/
def Inv (s : ServeState) : Prop :=
  ∀ us, s.updatesVar = some us → us ≠ [] →
    ∃ m, lastId us = some m ∧ s.offset = some (m + 1)

theorem lastMem {α : Type} : ∀ (l : List α) (a : α), l.getLast? = some a → a ∈ l := by
  intro l
  induction l with
  | nil => intro a h; simp at h
  | cons x t ih =>
    intro a h
    cases t with
    | nil =>
      simp at h
      exact h ▸ List.mem_cons_self _ _
    | cons y t2 =>
      rw [List.getLast?_cons_cons] at h
      exact List.mem_cons_of_mem _ (ih a h)

theorem idsSorted_getLast_le : ∀ (l : List Int) (m : Int), IdsSorted l →
    l.getLast? = some m → ∀ i ∈ l, i ≤ m := by
  intro l
  induction l with
  | nil => intro m _ hm; simp at hm
  | cons a t ih =>
    intro m hch hm i hi
    cases t with
    | nil =>
      simp at hm hi
      omega
    | cons b t2 =>
      rw [List.getLast?_cons_cons] at hm
      obtain ⟨hab, hch2⟩ := hch
      rcases List.mem_cons.mp hi with rfl | hi2
      · have hbm : b ≤ m := ih m hch2 hm b (List.mem_cons_self _ _)
        omega
      · exact ih m hch2 hm i hi2

/-- A batch whose updates all carry identifiers has `updates[-1]` carrying
the last entry of `batchIds`. -/
theorem lastId_getLast : ∀ (us : List Update), us ≠ [] →
    (∀ u ∈ us, (getId u).isSome = true) →
    ∃ m, lastId us = some m ∧ (batchIds us).getLast? = some m := by
  intro us
  induction us with
  | nil => intro h; exact absurd rfl h
  | cons u us ih =>
    intro _ hall
    cases hus : us with
    | nil =>
      subst hus
      obtain ⟨m, hm⟩ := Option.isSome_iff_exists.mp (hall u (List.mem_cons_self _ _))
      exact ⟨m, by simp [lastId, hm], by simp [batchIds, hm]⟩
    | cons v vs =>
      subst hus
      obtain ⟨m, hm1, hm2⟩ := ih (by simp) (fun w hw => hall w (List.mem_cons_of_mem _ hw))
      refine ⟨m, ?_, ?_⟩
      · rw [lastId, List.getLast?_cons_cons]
        exact hm1
      · obtain ⟨mu, hmu⟩ := Option.isSome_iff_exists.mp (hall u (List.mem_cons_self _ _))
        have hb : batchIds (u :: v :: vs) = mu :: batchIds (v :: vs) := by
          simp [batchIds, List.filterMap_cons, hmu]
        rw [hb]
        cases hq : batchIds (v :: vs) with
        | nil => rw [hq] at hm2; simp at hm2
        | cons w ws =>
          rw [hq] at hm2
          rw [List.getLast?_cons_cons]
          exact hm2

/-- The content of `BatchOk` used by the cursor theorems: the last
identifier exists and is the maximum, and sits at or above the cursor. -/
theorem batch_max (off : Option Int) (us : List Update)
    (hok : BatchOk off us) (hne : us ≠ []) :
    ∃ m, lastId us = some m ∧ m ∈ batchIds us ∧ (∀ i ∈ batchIds us, i ≤ m) ∧
      offLE off (some (m + 1)) := by
  obtain ⟨m, hm1, hm2⟩ := lastId_getLast us hne hok.1
  have hmem : m ∈ batchIds us := lastMem _ m hm2
  have hmax := idsSorted_getLast_le _ m hok.2.1 hm2
  have hoff : offLE off (some m) := hok.2.2 m hmem
  exact ⟨m, hm1, hmem, hmax, offLE_mono_right hoff (by omega)⟩

/-- A non-`none` `lastId` pins down `updates[-1]` and its identifier. -/
theorem lastId_elim (us : List Update) (m : Int) (hm : lastId us = some m) :
    ∃ lastU, us.getLast? = some lastU ∧
      alookup "update_id" lastU.entries = some (.vint m) := by
  unfold lastId at hm
  cases hl : us.getLast? with
  | none => rw [hl] at hm; simp at hm
  | some lastU =>
    rw [hl] at hm
    simp only at hm
    refine ⟨lastU, rfl, ?_⟩
    unfold getId at hm
    cases ha : alookup "update_id" lastU.entries with
    | none => rw [ha] at hm; simp at hm
    | some v =>
      rw [ha] at hm
      cases v with
      | vint n =>
        simp at hm
        rw [hm]
      | vpay p => simp at hm


/-! ## Step lemmas for the cursor -/

/-- Evaluation of `processBatch` once `updates[-1]["update_id"]` is known:
the cursor is set to `m + 1` BEFORE dispatch, the `updates` local is left
alone, and the 0.2 pause happens only when no callback raised. -/
theorem processBatch_eq (kwargs : Kwargs) (s : ServeState) (us : List Update)
    (m : Int) (hm : lastId us = some m) :
    processBatch kwargs s us =
      match (dispatchBatch kwargs s.run us).exn with
      | some e => ⟨⟨some (m + 1), (dispatchBatch kwargs s.run us).run, s.updatesVar⟩,
                   (dispatchBatch kwargs s.run us).events, some e⟩
      | none => ⟨⟨some (m + 1), (dispatchBatch kwargs s.run us).run, s.updatesVar⟩,
                 (dispatchBatch kwargs s.run us).events ++ [.sleep pauseLen], none⟩ := by
  obtain ⟨lastU, hl, ha⟩ := lastId_elim us m hm
  simp only [processBatch, hl, ha]

/-- On a successful non-empty fetch, the new cursor is one past the last
identifier and the batch is stored in the `updates` local — whatever the
callbacks then do. -/
theorem serveStep_ok_state (kwargs : Kwargs) (s : ServeState) (us : List Update)
    (m : Int) (hne : us ≠ []) (hm : lastId us = some m) :
    (serveStep kwargs s (.ok us)).next.offset = some (m + 1) ∧
    (serveStep kwargs s (.ok us)).next.updatesVar = some us := by
  have hstep : serveStep kwargs s (.ok us)
      = processBatch kwargs ⟨s.offset, s.run, some us⟩ us := by
    simp [serveStep, hne]
  rw [hstep, processBatch_eq _ _ _ m hm]
  cases (dispatchBatch kwargs (ServeState.mk s.offset s.run (some us)).run us).exn <;> simp

/-- A `BotAPIFailed` iteration never moves the cursor: either it dies on
the unbound local, or skips an empty stale batch, or re-runs line 87 on the
stale batch — writing back the very value the invariant says is already
there. -/
theorem serveStep_failed_state (kwargs : Kwargs) (s : ServeState) (hInv : Inv s)
    (params : Option (List (String × Int))) :
    (serveStep kwargs s (.failed params)).next.offset = s.offset ∧
    (serveStep kwargs s (.failed params)).next.updatesVar = s.updatesVar := by
  cases huv : s.updatesVar with
  | none => simp [serveStep, huv]
  | some us =>
    by_cases hemp : us = []
    · subst hemp
      simp [serveStep, huv]
    · obtain ⟨m, hm1, hm2⟩ := hInv us huv hemp
      simp only [serveStep, huv]
      rw [if_neg hemp, processBatch_eq _ _ _ m hm1]
      cases (dispatchBatch kwargs s.run us).exn <;> simp [hm2, huv]

/-- One iteration neither lowers the cursor (given the platform contract
for a successful fetch) nor breaks the stale-batch invariant. -/
theorem serveStep_mono (kwargs : Kwargs) (s : ServeState) (o : FetchOutcome)
    (hInv : Inv s) (hok : OutcomeOk s.offset o) :
    offLE s.offset (serveStep kwargs s o).next.offset ∧
    Inv (serveStep kwargs s o).next := by
  cases o with
  | otherExn => exact ⟨offLE_refl _, hInv⟩
  | failed params =>
    obtain ⟨ho, hu⟩ := serveStep_failed_state kwargs s hInv params
    refine ⟨ho ▸ offLE_refl _, ?_⟩
    intro us' h' hne'
    rw [hu] at h'
    obtain ⟨m, hm1, hm2⟩ := hInv us' h' hne'
    exact ⟨m, hm1, ho ▸ hm2⟩
  | ok us =>
    by_cases hemp : us = []
    · subst hemp
      refine ⟨offLE_refl _, ?_⟩
      intro us' h' hne'
      have h'' : some ([] : List Update) = some us' := h'
      injection h'' with h3
      exact absurd h3.symm hne'
    · obtain ⟨m, hm1, _, _, hoffle⟩ := batch_max s.offset us hok hemp
      obtain ⟨ho, hu⟩ := serveStep_ok_state kwargs s us m hemp hm1
      refine ⟨ho ▸ hoffle, ?_⟩
      intro us' h' hne'
      rw [hu] at h'
      injection h' with h3
      exact ⟨m, h3 ▸ hm1, h3 ▸ ho⟩

/-- Along any run, the cursor never decreases. -/
theorem serveLoop_mono (kwargs : Kwargs) :
    ∀ (script : List FetchOutcome) (s : ServeState), Inv s → ScriptOk kwargs s script →
      offLE s.offset (serveLoop kwargs s script).final.offset := by
  intro script
  induction script with
  | nil => intro s _ _; exact offLE_refl _
  | cons o rest ih =>
    intro s hInv hOk
    by_cases hrun : s.run = true
    · have hstep := serveStep_mono kwargs s o hInv hOk.1
      cases hexn : (serveStep kwargs s o).exn with
      | some e =>
        have heq : serveLoop kwargs s (o :: rest) =
            ⟨(serveStep kwargs s o).next,
             .fetch s.offset :: (serveStep kwargs s o).events, some e⟩ := by
          simp [serveLoop, hrun, hexn]
        rw [heq]
        exact hstep.1
      | none =>
        have heq : serveLoop kwargs s (o :: rest) =
            ⟨(serveLoop kwargs (serveStep kwargs s o).next rest).final,
             .fetch s.offset :: ((serveStep kwargs s o).events ++
               (serveLoop kwargs (serveStep kwargs s o).next rest).trace),
             (serveLoop kwargs (serveStep kwargs s o).next rest).exn⟩ := by
          simp [serveLoop, hrun, hexn]
        rw [heq]
        exact offLE_trans hstep.1 (ih _ hstep.2 hOk.2)
    · have hrun' : s.run = false := by
        cases hb : s.run
        · rfl
        · exact absurd hb hrun
      have heq : serveLoop kwargs s (o :: rest) = ⟨s, [], none⟩ := by
        simp [serveLoop, hrun']
      rw [heq]
      exact offLE_refl _


/-! ## Claim theorems about the cursor -/

/-- Claim C2: under the platform contract for fetched batches (identifiers
present, strictly increasing, at or above the cursor the fetch was issued
with — the spec's data model), the cursor never decreases across a run of
`serve`; immediately after a non-empty batch is fetched — the assignment of
line 87 runs before any dispatch, and the conjunct holds for EVERY callback
map, i.e. regardless of callback outcomes — the cursor equals the batch's
maximal identifier plus one (the sorted batch's last identifier is its
max); and an iteration whose fetch failed leaves the cursor exactly where
it was, so the cursor advances only after successful fetches and is never
rolled back. -/
theorem serve_cursor_monotone (kwargs : Kwargs) (s : ServeState) (script : List FetchOutcome)
    (hInv : Inv s) (hOk : ScriptOk kwargs s script) :
    offLE s.offset (serveLoop kwargs s script).final.offset ∧
    (∀ (kw : Kwargs) (us : List Update) (rest : List FetchOutcome),
      script = .ok us :: rest → us ≠ [] →
      ∃ m, (serveStep kw s (.ok us)).next.offset = some (m + 1) ∧
        m ∈ batchIds us ∧ ∀ i ∈ batchIds us, i ≤ m) ∧
    (∀ params, (serveStep kwargs s (.failed params)).next.offset = s.offset) ∧
    (serveStep kwargs s .otherExn).next.offset = s.offset := by
  refine ⟨serveLoop_mono kwargs script s hInv hOk, ?_, ?_, rfl⟩
  · intro kw us rest hscript hne
    have hok : BatchOk s.offset us := by
      rw [hscript] at hOk
      exact hOk.1
    obtain ⟨m, hm1, hmem, hmax, _⟩ := batch_max s.offset us hok hne
    obtain ⟨ho, _⟩ := serveStep_ok_state kw s us m hne hm1
    exact ⟨m, ho, hmem, hmax⟩
  · intro params
    exact (serveStep_failed_state kwargs s hInv params).1

/-- Closed instance of `serve_cursor_monotone` for a fresh client and the
batch `[u5, u7]`: the hypotheses (empty-local invariant, platform
contract) are discharged concretely. -/
theorem serve_cursor_monotone_witness :
    offLE s0.offset (serveLoop cbOk s0 [FetchOutcome.ok [u5, u7]]).final.offset :=
  (serve_cursor_monotone cbOk s0 [.ok [u5, u7]]
    (fun _ h => nomatch h)
    ⟨⟨by decide, by decide, by decide⟩, trivial⟩).1

/-- Claim C10: when a registered callback raises while a well-formed
non-empty batch is dispatched, the exception propagates out of `serve`
(nothing after that batch's raising callback is consumed: the run is
independent of the remaining script), yet the cursor remains at one past
the batch's maximal identifier — the dispatch trace stops at the raising
callback (the remaining updates of the batch are never dispatched), and a
subsequent `serve` fetching at this cursor asks only for identifiers past
the whole batch, so none of it is redelivered. -/
theorem serve_callback_exn (kwargs : Kwargs) (s : ServeState) (us : List Update)
    (rest : List FetchOutcome) (hrun : s.run = true) (hne : us ≠ [])
    (hok : BatchOk s.offset us)
    (hraise : (dispatchBatch kwargs true us).exn = some .cbError) :
    ∃ m, lastId us = some m ∧ (∀ i ∈ batchIds us, i ≤ m) ∧
      (serveLoop kwargs s (.ok us :: rest)).exn = some .cbError ∧
      (serveLoop kwargs s (.ok us :: rest)).final.offset = some (m + 1) ∧
      (serveLoop kwargs s (.ok us :: rest)).trace =
        .fetch s.offset :: (dispatchBatch kwargs true us).events ∧
      ∀ rest', serveLoop kwargs s (.ok us :: rest') =
        serveLoop kwargs s (.ok us :: rest) := by
  obtain ⟨m, hm1, _, hmax, _⟩ := batch_max s.offset us hok hne
  have hstep : serveStep kwargs s (.ok us)
      = processBatch kwargs ⟨s.offset, s.run, some us⟩ us := by
    simp [serveStep, hne]
  have hstepEq : serveStep kwargs s (.ok us) =
      ⟨⟨some (m + 1), (dispatchBatch kwargs true us).run, some us⟩,
       (dispatchBatch kwargs true us).events, some .cbError⟩ := by
    rw [hstep, processBatch_eq _ _ _ m hm1]
    simp only [hrun, hraise]
  have hserve : ∀ r', serveLoop kwargs s (.ok us :: r') =
      ⟨⟨some (m + 1), (dispatchBatch kwargs true us).run, some us⟩,
       .fetch s.offset :: (dispatchBatch kwargs true us).events, some .cbError⟩ := by
    intro r'
    simp [serveLoop, hrun, hstepEq]
  refine ⟨m, hm1, hmax, ?_, ?_, ?_, ?_⟩
  · rw [hserve rest]
  · rw [hserve rest]
  · rw [hserve rest]
  · intro rest'
    rw [hserve rest', hserve rest]

def cbRaise : Kwargs := [("message", fun _ => .raise)]

/-- Closed instance of `serve_callback_exn`: the raising `message` callback
on the batch `[u5, u7]` of a fresh client. -/
theorem serve_callback_exn_witness :
    ∃ m, lastId [u5, u7] = some m ∧ (∀ i ∈ batchIds [u5, u7], i ≤ m) ∧
      (serveLoop cbRaise s0 [.ok [u5, u7]]).exn = some .cbError ∧
      (serveLoop cbRaise s0 [.ok [u5, u7]]).final.offset = some (m + 1) ∧
      (serveLoop cbRaise s0 [.ok [u5, u7]]).trace =
        .fetch s0.offset :: (dispatchBatch cbRaise true [u5, u7]).events ∧
      ∀ rest', serveLoop cbRaise s0 (.ok [u5, u7] :: rest') =
        serveLoop cbRaise s0 [.ok [u5, u7]] :=
  serve_callback_exn cbRaise s0 [u5, u7] [] rfl (by decide)
    ⟨by decide, by decide, by decide⟩ (by decide)


/-- Closed instance of `parse_cmd_invalid_none`: plain text without the
command marker parses to no command. -/
theorem parse_cmd_invalid_none_witness :
    parse_cmd "bot" "hello" = (none, none) :=
  parse_cmd_invalid_none "bot" "hello" (Or.inr (Or.inl (by decide)))

end Pkginfobot
